import Mathlib

/-!
# Watchcat: a liveness watchdog for the server main loop

A shallow embedding of `Plugins/Watchcat/Watchcat.cpp`.

* The watchdog thread (`WatchcatThread`) is a step function over its local
  variables; everything it reads from outside (the steady clock, the main-loop
  counter, the exit flag, the suppression flag, the sampled stack) is supplied
  by an observation record, one record per loop iteration.
* The callstack table (`CallstackMap`) is an association list with distinct
  keys; `DumpStacks` is the ranked report, stated for every order the
  container and `std::sort` may choose.
* The sampling handshake between the watchdog thread and the signal handler is
  a transition system over program points, one action per step.
* The suppression gate is the pair of statics written by
  `NWNXWatchcat_DisableUntilScriptExit` and by the `RunScript` hook.

Times are `steady_clock` ticks (nanoseconds); counters are naturals reduced
modulo their machine width wherever the source does arithmetic on them.
-/

namespace Watchcat

/-! ## Constants (lines 17-30) -/

/-- `CALLSTACK_SIZE`: capacity of the shared stack buffer. -/
def CALLSTACK_SIZE : Nat := 20

/-- `WATCHCAT_WARMUP_MSEC`. -/
def WATCHCAT_WARMUP_MSEC : Int := 300000

/-- `WATCHCAT_STALL_MSEC`. -/
def WATCHCAT_STALL_MSEC : Int := 1000

/-- `WATCHCAT_STALL_SAMPLE_RATE_MSEC`. -/
def WATCHCAT_STALL_SAMPLE_RATE_MSEC : Int := 16

/-- `WATCHCAT_TOP_N_STACKS` (an `int` in the source). -/
def WATCHCAT_TOP_N_STACKS : Int := 10

/-- `WATCHCAT_KILL_MSEC`. -/
def WATCHCAT_KILL_MSEC : Int := 120000

/-- `std::chrono::milliseconds(n)` converted to the clock's duration type:
`steady_clock` counts nanoseconds. -/
def milliseconds (n : Int) : Int := n * 1000000

/-- `duration_cast<milliseconds>(d).count()`: truncation toward zero. -/
def duration_cast_milliseconds (d : Int) : Int := d.tdiv 1000000

/-! ## Callstacks and the callstack table (lines 32-53, 186) -/

/-- `using Callstack = std::vector<void*>`: return addresses, top frame first. -/
abbrev Callstack := List Nat

/-- `CallstackEqual`: `lhs == rhs` on vectors, i.e. same length and same
addresses in the same order. -/
def CallstackEqual (lhs rhs : Callstack) : Bool := decide (lhs = rhs)

/-- `CallstackMap`: the `unordered_map` from callstack to `size_t` count, as its
list of (key, count) nodes. The iteration order of the real container is
unspecified; here it is insertion order. -/
abbrev CallstackMap := List (Callstack × Nat)

/-- Line 186, `callstacks[callstack]++`: `operator[]` finds the node whose key is
`CallstackEqual` to the argument, or inserts one with count 0; the count, a
64-bit `size_t`, is then incremented. -/
def record : CallstackMap → Callstack → CallstackMap
  | [], callstack => [(callstack, (0 + 1) % 2 ^ 64)]
  | (key, occurs) :: rest, callstack =>
    if CallstackEqual key callstack then (key, (occurs + 1) % 2 ^ 64) :: rest
    else (key, occurs) :: record rest callstack

/-- The table after recording a sequence of samples into an empty table. -/
def recordAll (samples : List Callstack) : CallstackMap :=
  samples.foldl record []

/-! ## The signal handler on the main thread (lines 70-89) -/

/-- Main-thread branch of `callstack_signal_handler`. `frames` is the stack
`backtrace` sees; it stores at most `CALLSTACK_SIZE` of them. When more than one
frame was stored the handler's own frame is dropped by `memmove`, which shifts
the buffer down by one and leaves the last slot as it was. Returns the
used part of `s_mainThreadStack` and `s_mainThreadStackLen`. -/
def callstack_signal_handler (frames : List Nat) : List Nat × Nat :=
  let stack := frames.take CALLSTACK_SIZE
  let len := stack.length
  if len > 1 then (stack.drop 1 ++ stack.drop (len - 1), len - 1)
  else (stack, len)

/-- Line 185: `Callstack(s_mainThreadStack, s_mainThreadStack + s_mainThreadStackLen)`. -/
def readCallstack (buffer : List Nat × Nat) : Callstack :=
  buffer.1.take buffer.2

/-! ## DumpStacks (lines 101-125) -/

/-- The comparator of line 106: `a.second > b.second`. -/
def moreOccurrences (a b : Callstack × Nat) : Bool := decide (a.2 > b.2)

/-- Lines 103-106: `sortedCallstacks` is filled from the table in the container's
iteration order and then sorted by `std::sort` with `moreOccurrences`. Neither
the iteration order of an `unordered_map` nor the order `std::sort` gives to
elements the comparator does not separate is specified, so the vector is
described by what is guaranteed of it: it holds exactly the table's nodes, and
the comparator puts no element before one that precedes it. -/
def sortedCopyOf (callstacks : CallstackMap)
    (sortedCallstacks : List (Callstack × Nat)) : Prop :=
  sortedCallstacks.Perm callstacks ∧
    sortedCallstacks.Pairwise (fun a b => moreOccurrences b a = false)

/-- `static_cast<int>(n)` for a `size_t` value on a 64-bit target: the low 32
bits read as two's complement. -/
def static_cast_int (n : Nat) : Int :=
  if n % 2 ^ 32 < 2 ^ 31 then (n % 2 ^ 32 : Nat) else ((n % 2 ^ 32 : Nat) : Int) - 2 ^ 32

/-- Conversion of an `int` to the 64-bit `size_t`. -/
def to_size_t (i : Int) : Nat := (i % 2 ^ 64).toNat

/-- Line 108: `numstacks = std::min(WATCHCAT_TOP_N_STACKS, static_cast<int>(size))`. -/
def numstacks (size : Nat) : Nat :=
  to_size_t (min WATCHCAT_TOP_N_STACKS (static_cast_int size))

/-- The lines `LOG_WARNING` writes from `DumpStacks`. -/
inductive LogLine where
  /-- `"Callstack %d: %d occurences", i, occurs`. -/
  | callstack (i : Nat) (occurs : Nat)
  /-- `"  %s", strstack[k]`: one line per frame, identified by its address. -/
  | frame (address : Nat)
  /-- `"... and %d more"`. -/
  | andMore (n : Nat)
  deriving DecidableEq, Repr

/-- Body of the loop of lines 110-120 for the entries from index `i` on. -/
def dumpEntries : Nat → List (Callstack × Nat) → List LogLine
  | _, [] => []
  | i, (callstack, occurs) :: rest =>
    LogLine.callstack i occurs :: callstack.map LogLine.frame ++ dumpEntries (i + 1) rest

/-- Lines 108-124 of `DumpStacks`, run on a given `sortedCallstacks`. `none`
stands for `sortedCallstacks.at(i)` throwing `std::out_of_range`, which happens
exactly when `numstacks` exceeds the number of entries (the size does not fit
an `int`). -/
def dumpSorted (sortedCallstacks : List (Callstack × Nat)) : Option (List LogLine) :=
  let n := numstacks sortedCallstacks.length
  if n ≤ sortedCallstacks.length then
    some (dumpEntries 0 (sortedCallstacks.take n) ++
      (if n < sortedCallstacks.length then [LogLine.andMore (sortedCallstacks.length - n)]
       else []))
  else none

/-- `DumpStacks`: `output` is a result the function can have on the table, namely
that of lines 108-124 on some vector lines 103-106 can produce. -/
def DumpStacks (callstacks : CallstackMap) (output : Option (List LogLine)) : Prop :=
  ∃ sortedCallstacks, sortedCopyOf callstacks sortedCallstacks ∧
    output = dumpSorted sortedCallstacks

/-- The index and the count a log line announces, when it is the first line of
an entry. -/
def entryOf : LogLine → Option (Nat × Nat)
  | LogLine.callstack i occurs => some (i, occurs)
  | LogLine.frame _ => none
  | LogLine.andMore _ => none

/-- The lines an entry of the report consists of: its index and count, then its
frames in order. -/
def entryLines (p : Nat × (Callstack × Nat)) : List LogLine :=
  LogLine.callstack p.1 p.2.2 :: p.2.1.map LogLine.frame

/-! ## The watchdog thread (lines 127-207) -/

/-- What one loop iteration of `WatchcatThread` reads from outside the thread. -/
structure Obs where
  /-- `g_bExitProgram`. -/
  exit : Bool
  /-- `steady_clock::now()`, in nanoseconds. -/
  now : Int
  /-- `s_mainThreadCounter`. -/
  counter : Nat
  /-- `s_watchcatDisabledUntilScriptExit.load()`. -/
  disabled : Bool
  /-- The frames the main thread's handler finds when asked for a sample; `none`
  when the request is never answered and the spin of line 183 does not end. -/
  frames : Option (List Nat)
  deriving DecidableEq, Repr

/-- Calls made by the thread that are visible from outside. -/
inductive Event where
  /-- Line 168, `LOG_WARNING("Watchcat ^.^~ detected a stall.")`. -/
  | stallDetected
  /-- Line 174, `LOG_DEBUG("Still stalling: Sampling main thread.")`. -/
  | sampling
  /-- `DumpStacks(callstacks)` called with this table (lines 191, 201). -/
  | dumpStacks (callstacks : CallstackMap)
  /-- Line 192, `LOG_FATAL("Watchcat ^.^~ ran out of patience.")`. -/
  | fatal
  /-- Line 198, `LOG_WARNING("Stall recovered after %lums", ms)`. -/
  | recovered (ms : Int)
  /-- Line 206, `LOG_DEBUG("Watchcat thread exiting")`. -/
  | exiting
  deriving DecidableEq, Repr

/-- Where the thread's control is between two iterations. -/
inductive Mode where
  /-- At the head of the outer loop (line 143). -/
  | polling
  /-- At the head of the inner loop (line 172); `now` is the reading of line 147
  that is still in scope and `callstacks` the table of line 170. -/
  | stalling (now : Int) (callstacks : CallstackMap)
  /-- `LOG_FATAL` was called: the process is gone. -/
  | killed
  /-- The outer loop was left; the thread returned. -/
  | exited
  /-- Spinning forever at line 183. -/
  | hung
  deriving DecidableEq, Repr

/-- The local variables of `WatchcatThread` after the warmup sleep. -/
structure WatchcatThread where
  lastObservedCounter : Nat
  lastObservedAt : Int
  mode : Mode
  deriving DecidableEq, Repr

/-- Lines 140-141: `lastObservedCounter = 0` and a default-constructed
`time_point`, which is the clock's epoch. -/
def WatchcatThread.init : WatchcatThread :=
  { lastObservedCounter := 0, lastObservedAt := 0, mode := Mode.polling }

/-- One iteration of the outer loop (lines 143-170) up to the head of the inner
loop. The flag is read only after the two earlier tests fell through. -/
def pollStep (w : WatchcatThread) (o : Obs) : WatchcatThread × List Event :=
  if o.exit then ({ w with mode := Mode.exited }, [Event.exiting])
  else if o.counter > w.lastObservedCounter then
    ({ lastObservedCounter := o.counter, lastObservedAt := o.now, mode := Mode.polling }, [])
  else if o.now - w.lastObservedAt < milliseconds WATCHCAT_STALL_MSEC then (w, [])
  else if o.disabled then (w, [])
  else ({ w with mode := Mode.stalling o.now [] }, [Event.stallDetected])

/-- One pass through the inner loop (lines 172-196), or the lines after it
(198-203) when its condition fails. `now` is the outer iteration's reading. -/
def stallStep (w : WatchcatThread) (now : Int) (callstacks : CallstackMap) (o : Obs) :
    WatchcatThread × List Event :=
  if (o.counter == w.lastObservedCounter) && !o.exit then
    match o.frames with
    | none => ({ w with mode := Mode.hung }, [Event.sampling])
    | some frames =>
      let callstack := readCallstack (callstack_signal_handler frames)
      let callstacks := record callstacks callstack
      if o.now - w.lastObservedAt > milliseconds (WATCHCAT_STALL_MSEC + WATCHCAT_KILL_MSEC) then
        ({ w with mode := Mode.killed },
          [Event.sampling, Event.dumpStacks callstacks, Event.fatal])
      else ({ w with mode := Mode.stalling now callstacks }, [Event.sampling])
  else
    ({ w with mode := Mode.polling },
      [Event.recovered (duration_cast_milliseconds (now - w.lastObservedAt)),
       Event.dumpStacks callstacks])

/-- One loop iteration of `WatchcatThread`, outer or inner according to where
control is. Nothing happens once the thread is gone or stuck. -/
def step (w : WatchcatThread) (o : Obs) : WatchcatThread × List Event :=
  match w.mode with
  | Mode.polling => pollStep w o
  | Mode.stalling now callstacks => stallStep w now callstacks o
  | Mode.killed => (w, [])
  | Mode.exited => (w, [])
  | Mode.hung => (w, [])

/-- The thread run over a sequence of observations: final state and the events
in order. -/
def run (w : WatchcatThread) : List Obs → WatchcatThread × List Event
  | [] => (w, [])
  | o :: os => ((run (step w o).1 os).1, (step w o).2 ++ (run (step w o).1 os).2)

/-! ## The main-loop hook (lines 224-244) -/

/-- The statics the main-loop hook touches. -/
structure Host where
  /-- `s_mainThreadCounter`, a `uint64_t`. -/
  s_mainThreadCounter : Nat
  /-- Whether `s_watchcatThread` is non-null. -/
  s_watchcatThread : Bool
  deriving DecidableEq, Repr

/-- State at load time: counter 0, no thread. -/
def Host.init : Host := { s_mainThreadCounter := 0, s_watchcatThread := false }

/-- `mainLoopHook`: `++s_mainThreadCounter`, then the thread is created if it
does not exist yet. -/
def mainLoopHook (h : Host) : Host :=
  { s_mainThreadCounter := (h.s_mainThreadCounter + 1) % 2 ^ 64, s_watchcatThread := true }

/-- Value of `s_mainThreadCounter` at time `t` when the main loop entered its
hook at the times `ticks`. -/
def counterAt (ticks : List Int) (t : Int) : Nat :=
  ((ticks.filter (fun tick => decide (tick ≤ t))).foldl (fun h _ => mainLoopHook h)
    Host.init).s_mainThreadCounter

/-! ## The suppression gate (lines 64, 216, 246-266) -/

/-- The two statics of the gate. -/
structure Suppression where
  /-- `s_watchcatDisabledUntilScriptExitLevel`, a `uint32_t`. -/
  level : Nat
  /-- `s_watchcatDisabledUntilScriptExit`. -/
  disabled : Bool
  deriving DecidableEq, Repr

/-- Both statics are zero-initialised. -/
def Suppression.init : Suppression := { level := 0, disabled := false }

/-- `NWNXWatchcat_DisableUntilScriptExit`: `Level++`, then the flag is stored true. -/
def NWNXWatchcat_DisableUntilScriptExit (s : Suppression) : Suppression :=
  { level := (s.level + 1) % 2 ^ 32, disabled := true }

/-- The `RunScript` hook after the original call returned (lines 251-256).
`none` is the failed `assert(Level > 0)`. -/
def runScriptHook (s : Suppression) : Option Suppression :=
  if s.disabled then
    if s.level > 0 then some { level := (s.level + (2 ^ 32 - 1)) % 2 ^ 32, disabled := false }
    else none
  else some s

/-- The two operations on the gate. -/
inductive GateOp where
  /-- A call of `NWNXWatchcat_DisableUntilScriptExit`. -/
  | beginSuppression
  /-- A completion of `RunScript`. -/
  | endOnScriptExit
  deriving DecidableEq, Repr

/-- One operation applied to the gate. -/
def applyOp (s : Suppression) : GateOp → Option Suppression
  | GateOp.beginSuppression => some (NWNXWatchcat_DisableUntilScriptExit s)
  | GateOp.endOnScriptExit => runScriptHook s

/-- A sequence of operations applied in order; `none` once an assertion failed. -/
def applyOps (s : Suppression) : List GateOp → Option Suppression
  | [] => some s
  | op :: ops =>
    match applyOp s op with
    | none => none
    | some s1 => applyOps s1 ops

/-! ## The sampling handshake (lines 62, 70-89, 97, 181-185)

The two threads and the signal that passes between them, as a transition
system over program points. A step is one action of one thread or one signal
delivery; any sequence of actions is an interleaving. Memory is sequentially
consistent: a store is seen by every later load. `CALLSTACK_SIG` is raised only
by the two `pthread_kill` calls of the source, and, as for any standard signal,
a thread has one pending bit for it. The handler is installed with a full
`sa_mask` (line 97), so it never interrupts itself on the same thread. -/

/-- Program points of the watchdog thread in the body of the Stalling loop. -/
inductive WatchdogPc where
  /-- Before line 181, `s_callstackCallback.store(false)`. -/
  | clearFlag
  /-- Before line 182, `pthread_kill(s_mainThreadId, CALLSTACK_SIG)`. -/
  | sendRequest
  /-- At line 183, `while (!s_callstackCallback.load()) {}`. -/
  | spin
  /-- Before line 185, where the buffer and its length are read. -/
  | readBuffer
  deriving DecidableEq, Repr

/-- Program points of `callstack_signal_handler` running on the watchdog thread
(lines 72-77). -/
inductive WatchdogHandlerPc where
  | notRunning
  /-- Before line 74, `assert(!s_callstackCallback.load())`. -/
  | assertFlag
  /-- Before line 75, `s_callstackCallback.store(true)`. -/
  | storeFlag
  /-- The assertion of line 74 failed. -/
  | aborted
  deriving DecidableEq, Repr

/-- Program points of `callstack_signal_handler` running on the main thread
(lines 79-88). -/
inductive MainHandlerPc where
  | notRunning
  /-- Before line 81, `s_mainThreadStackLen = backtrace(s_mainThreadStack, ...)`. -/
  | capture
  /-- Before lines 82-86, the adjustment of the length and the `memmove`. -/
  | trim
  /-- Before line 88, `pthread_kill(s_watchcatThreadId, CALLSTACK_SIG)`. -/
  | sendBack
  deriving DecidableEq, Repr

/-- State of the handshake. The fields from `request` on are history variables:
they record for which request something happened and steer nothing. -/
structure Handshake where
  watchdog : WatchdogPc
  watchdogHandler : WatchdogHandlerPc
  mainHandler : MainHandlerPc
  /-- The stack-ready flag `s_callstackCallback`. -/
  s_callstackCallback : Bool
  /-- `CALLSTACK_SIG` is pending for the main thread. -/
  pendingMain : Bool
  /-- `CALLSTACK_SIG` is pending for the watchdog thread. -/
  pendingWatchdog : Bool
  /-- Number of requests begun, i.e. of executions of line 181. -/
  request : Nat
  /-- Request whose line 182 raised the signal pending for the main thread. -/
  signalFor : Nat
  /-- Request the handler activation on the main thread answers. -/
  serving : Nat
  /-- The main thread's handler has started and not yet finished writing
  `s_mainThreadStack` and `s_mainThreadStackLen`. -/
  writing : Bool
  /-- Request for which buffer and length were last written completely. -/
  written : Nat
  /-- Request for which the return signal was last sent (line 88). -/
  returnFor : Nat
  /-- Request the handler activation on the watchdog thread acknowledges. -/
  acking : Nat
  /-- Request for which the flag was last stored true (line 75). -/
  flagFor : Nat
  /-- Request for which a load of line 183 last returned true. -/
  observed : Nat
  deriving DecidableEq, Repr

/-- Before the first request: the flag is zero-initialised, nothing is pending. -/
def Handshake.init : Handshake :=
  { watchdog := WatchdogPc.clearFlag, watchdogHandler := WatchdogHandlerPc.notRunning,
    mainHandler := MainHandlerPc.notRunning, s_callstackCallback := false,
    pendingMain := false, pendingWatchdog := false, request := 0, signalFor := 0,
    serving := 0, writing := false, written := 0, returnFor := 0, acking := 0,
    flagFor := 0, observed := 0 }

/-- What can happen next. -/
inductive Action where
  /-- The watchdog thread executes its next instruction (of the handler, when
  the handler is running on it). -/
  | watchdogThread
  /-- The main thread executes its next instruction (of the handler, when the
  handler is running on it). -/
  | mainThread
  /-- The pending signal is delivered to the main thread. -/
  | deliverToMain
  /-- The pending signal is delivered to the watchdog thread. -/
  | deliverToWatchdog
  deriving DecidableEq, Repr

/-- One action; `none` when the action cannot happen in this state. -/
def Handshake.step (s : Handshake) : Action → Option Handshake
  | Action.deliverToMain =>
    if s.pendingMain = true ∧ s.mainHandler = MainHandlerPc.notRunning then
      some { s with pendingMain := false, mainHandler := MainHandlerPc.capture,
                    serving := s.signalFor }
    else none
  | Action.deliverToWatchdog =>
    if s.pendingWatchdog = true ∧ s.watchdogHandler = WatchdogHandlerPc.notRunning then
      some { s with pendingWatchdog := false,
                    watchdogHandler := WatchdogHandlerPc.assertFlag,
                    acking := s.returnFor }
    else none
  | Action.mainThread =>
    match s.mainHandler with
    | MainHandlerPc.notRunning => some s
    | MainHandlerPc.capture =>
      some { s with mainHandler := MainHandlerPc.trim, writing := true }
    | MainHandlerPc.trim =>
      some { s with mainHandler := MainHandlerPc.sendBack, writing := false,
                    written := s.serving }
    | MainHandlerPc.sendBack =>
      some { s with mainHandler := MainHandlerPc.notRunning, pendingWatchdog := true,
                    returnFor := s.serving }
  | Action.watchdogThread =>
    match s.watchdogHandler with
    | WatchdogHandlerPc.aborted => none
    | WatchdogHandlerPc.assertFlag =>
      if s.s_callstackCallback = true then
        some { s with watchdogHandler := WatchdogHandlerPc.aborted }
      else some { s with watchdogHandler := WatchdogHandlerPc.storeFlag }
    | WatchdogHandlerPc.storeFlag =>
      some { s with s_callstackCallback := true,
                    watchdogHandler := WatchdogHandlerPc.notRunning,
                    flagFor := s.acking }
    | WatchdogHandlerPc.notRunning =>
      match s.watchdog with
      | WatchdogPc.clearFlag =>
        some { s with s_callstackCallback := false, watchdog := WatchdogPc.sendRequest,
                      request := s.request + 1 }
      | WatchdogPc.sendRequest =>
        some { s with pendingMain := true, watchdog := WatchdogPc.spin,
                      signalFor := s.request }
      | WatchdogPc.spin =>
        if s.s_callstackCallback = true then
          some { s with watchdog := WatchdogPc.readBuffer, observed := s.flagFor }
        else some s
      | WatchdogPc.readBuffer => some { s with watchdog := WatchdogPc.clearFlag }

/-- A sequence of actions from `s`; `none` when one of them cannot happen. -/
def Handshake.exec (s : Handshake) : List Action → Option Handshake
  | [] => some s
  | a :: rest =>
    match s.step a with
    | none => none
    | some s1 => s1.exec rest

/-- Where the handshake can be and what has then happened for which request:
the phases of one request in order, from before line 181 to after line 183. -/
def Handshake.inPhase (s : Handshake) : Prop :=
  match s.watchdog, s.watchdogHandler, s.mainHandler, s.pendingMain, s.pendingWatchdog,
    s.writing with
  | WatchdogPc.clearFlag, WatchdogHandlerPc.notRunning, MainHandlerPc.notRunning, false,
      false, false =>
    s.signalFor = s.request ∧ s.serving = s.request ∧ s.written = s.request ∧
      s.returnFor = s.request ∧ s.acking = s.request ∧ s.flagFor = s.request ∧
      s.observed = s.request
  | WatchdogPc.sendRequest, WatchdogHandlerPc.notRunning, MainHandlerPc.notRunning, false,
      false, false =>
    s.s_callstackCallback = false ∧
    s.signalFor + 1 = s.request ∧ s.serving + 1 = s.request ∧ s.written + 1 = s.request ∧
      s.returnFor + 1 = s.request ∧ s.acking + 1 = s.request ∧ s.flagFor + 1 = s.request ∧
      s.observed + 1 = s.request
  | WatchdogPc.spin, WatchdogHandlerPc.notRunning, MainHandlerPc.notRunning, true,
      false, false =>
    s.s_callstackCallback = false ∧
    s.signalFor = s.request ∧ s.serving + 1 = s.request ∧ s.written + 1 = s.request ∧
      s.returnFor + 1 = s.request ∧ s.acking + 1 = s.request ∧ s.flagFor + 1 = s.request ∧
      s.observed + 1 = s.request
  | WatchdogPc.spin, WatchdogHandlerPc.notRunning, MainHandlerPc.capture, false,
      false, false =>
    s.s_callstackCallback = false ∧
    s.signalFor = s.request ∧ s.serving = s.request ∧ s.written + 1 = s.request ∧
      s.returnFor + 1 = s.request ∧ s.acking + 1 = s.request ∧ s.flagFor + 1 = s.request ∧
      s.observed + 1 = s.request
  | WatchdogPc.spin, WatchdogHandlerPc.notRunning, MainHandlerPc.trim, false,
      false, true =>
    s.s_callstackCallback = false ∧
    s.signalFor = s.request ∧ s.serving = s.request ∧ s.written + 1 = s.request ∧
      s.returnFor + 1 = s.request ∧ s.acking + 1 = s.request ∧ s.flagFor + 1 = s.request ∧
      s.observed + 1 = s.request
  | WatchdogPc.spin, WatchdogHandlerPc.notRunning, MainHandlerPc.sendBack, false,
      false, false =>
    s.s_callstackCallback = false ∧
    s.signalFor = s.request ∧ s.serving = s.request ∧ s.written = s.request ∧
      s.returnFor + 1 = s.request ∧ s.acking + 1 = s.request ∧ s.flagFor + 1 = s.request ∧
      s.observed + 1 = s.request
  | WatchdogPc.spin, WatchdogHandlerPc.notRunning, MainHandlerPc.notRunning, false,
      true, false =>
    s.s_callstackCallback = false ∧
    s.signalFor = s.request ∧ s.serving = s.request ∧ s.written = s.request ∧
      s.returnFor = s.request ∧ s.acking + 1 = s.request ∧ s.flagFor + 1 = s.request ∧
      s.observed + 1 = s.request
  | WatchdogPc.spin, WatchdogHandlerPc.assertFlag, MainHandlerPc.notRunning, false,
      false, false =>
    s.s_callstackCallback = false ∧
    s.signalFor = s.request ∧ s.serving = s.request ∧ s.written = s.request ∧
      s.returnFor = s.request ∧ s.acking = s.request ∧ s.flagFor + 1 = s.request ∧
      s.observed + 1 = s.request
  | WatchdogPc.spin, WatchdogHandlerPc.storeFlag, MainHandlerPc.notRunning, false,
      false, false =>
    s.s_callstackCallback = false ∧
    s.signalFor = s.request ∧ s.serving = s.request ∧ s.written = s.request ∧
      s.returnFor = s.request ∧ s.acking = s.request ∧ s.flagFor + 1 = s.request ∧
      s.observed + 1 = s.request
  | WatchdogPc.spin, WatchdogHandlerPc.notRunning, MainHandlerPc.notRunning, false,
      false, false =>
    s.s_callstackCallback = true ∧
    s.signalFor = s.request ∧ s.serving = s.request ∧ s.written = s.request ∧
      s.returnFor = s.request ∧ s.acking = s.request ∧ s.flagFor = s.request ∧
      s.observed + 1 = s.request
  | WatchdogPc.readBuffer, WatchdogHandlerPc.notRunning, MainHandlerPc.notRunning, false,
      false, false =>
    s.s_callstackCallback = true ∧
    s.signalFor = s.request ∧ s.serving = s.request ∧ s.written = s.request ∧
      s.returnFor = s.request ∧ s.acking = s.request ∧ s.flagFor = s.request ∧
      s.observed = s.request
  | _, _, _, _, _, _ => False

/-! ## Vocabulary for statements about runs -/

/-- The callstack the watchdog records for an answered sample request
(lines 81-86 followed by line 185); empty when there is no answer. -/
def sampleOf (o : Obs) : Callstack :=
  match o.frames with
  | some frames => readCallstack (callstack_signal_handler frames)
  | none => []

/-- A poll that finds the program not exiting, the counter not advanced, and the
stall threshold not yet reached. -/
def waiting (w : WatchcatThread) (o : Obs) : Prop :=
  o.exit = false ∧ o.counter ≤ w.lastObservedCounter ∧
    o.now - w.lastObservedAt < milliseconds WATCHCAT_STALL_MSEC

instance waiting.decidable (w : WatchcatThread) (o : Obs) : Decidable (waiting w o) :=
  inferInstanceAs (Decidable (o.exit = false ∧ o.counter ≤ w.lastObservedCounter ∧
    o.now - w.lastObservedAt < milliseconds WATCHCAT_STALL_MSEC))

/-- A pass of the inner loop that finds the counter unchanged, the program not
exiting, an answered sample and the kill threshold not exceeded. -/
def stalledWithin (w : WatchcatThread) (o : Obs) : Prop :=
  o.counter = w.lastObservedCounter ∧ o.exit = false ∧ o.frames ≠ none ∧
    o.now - w.lastObservedAt ≤ milliseconds (WATCHCAT_STALL_MSEC + WATCHCAT_KILL_MSEC)

instance stalledWithin.decidable (w : WatchcatThread) (o : Obs) :
    Decidable (stalledWithin w o) :=
  inferInstanceAs (Decidable (o.counter = w.lastObservedCounter ∧ o.exit = false ∧
    o.frames ≠ none ∧
    o.now - w.lastObservedAt ≤ milliseconds (WATCHCAT_STALL_MSEC + WATCHCAT_KILL_MSEC)))

/-- Along the run from `w`, the suppression flag reads true at every iteration
whose counter reading has not moved past the last observed value, i.e. from the
moment the counter last advanced until it advances again. -/
def suppressedWhileStalled (w : WatchcatThread) : List Obs → Prop
  | [] => True
  | o :: os =>
    (o.counter ≤ w.lastObservedCounter → o.disabled = true) ∧
      suppressedWhileStalled (step w o).1 os

/-- Consecutive hook entries are in time order and less than `gap` apart. -/
def ticksCloserThan (gap : Int) (ticks : List Int) : Prop :=
  ticks.Chain' (fun a b => a ≤ b ∧ b - a < gap)

/-- Consecutive hook entries are in time order and less than the stall
threshold apart. -/
def ticksCloserThanStall (ticks : List Int) : Prop :=
  ticksCloserThan (milliseconds WATCHCAT_STALL_MSEC) ticks

/-- The main loop is running around time `t`: it entered its hook at or before
`t` and enters it again later. -/
def tickingAround (ticks : List Int) (t : Int) : Prop :=
  (∃ a ∈ ticks, a ≤ t) ∧ (∃ b ∈ ticks, t < b)

instance tickingAround.decidable (ticks : List Int) (t : Int) :
    Decidable (tickingAround ticks t) :=
  inferInstanceAs (Decidable ((∃ a ∈ ticks, a ≤ t) ∧ (∃ b ∈ ticks, t < b)))

/-- A poll as the source takes it, paired with the time of its counter read:
the clock is read first (line 147), the counter (line 148) at `p.2`, no more
than `delay` later, while the main loop is running, and the counter read
returns what the hook entries up to `p.2` have made it. -/
def readsInOrder (ticks : List Int) (delay : Int) (p : Obs × Int) : Prop :=
  p.1.now ≤ p.2 ∧ p.2 - p.1.now ≤ delay ∧ tickingAround ticks p.2 ∧
    p.1.counter = counterAt ticks p.2

instance readsInOrder.decidable (ticks : List Int) (delay : Int) (p : Obs × Int) :
    Decidable (readsInOrder ticks delay p) :=
  inferInstanceAs (Decidable (p.1.now ≤ p.2 ∧ p.2 - p.1.now ≤ delay ∧
    tickingAround ticks p.2 ∧ p.1.counter = counterAt ticks p.2))

/-! ## Concrete scenarios -/

/-- A thread in its polling loop that last saw the counter advance, to 7, at
clock reading 0. -/
def stalledAtZero : WatchcatThread :=
  { lastObservedCounter := 7, lastObservedAt := 0, mode := Mode.polling }

/-- An iteration at `ms` milliseconds on the clock with the given counter and
flag readings, the program not exiting, and a main thread that answers a sample
request from inside frame 100 called from frame 200 (frame 0 is the handler). -/
def obsAt (ms : Int) (counter : Nat) (disabled : Bool) : Obs :=
  { exit := false, now := milliseconds ms, counter := counter, disabled := disabled,
    frames := some [0, 100, 200] }

/-- The spec's recovery scenario at the source's cadence: the counter stays at 7
from time 0; the thread polls every 16 ms (16, 32, ..., 1008), samples every
16 ms (1008, 1024, ..., 2992), and at 3008 finds the counter advanced to 8. -/
def recoveryScenario : List Obs :=
  (List.range 63).map (fun i => obsAt (16 * ((i : Int) + 1)) 7 false) ++
  (List.range 125).map (fun i => obsAt (1008 + 16 * (i : Int)) 7 false) ++
  [obsAt 3008 8 false]

/-- A main loop that enters its hook every 900 ms, from 0 to 3600 ms. -/
def ticksEvery900 : List Int :=
  [milliseconds 0, milliseconds 900, milliseconds 1800, milliseconds 2700, milliseconds 3600]

/-- A poll that reads the clock at `ms` milliseconds and the counter produced by
`ticks` at `readMs` milliseconds, paired with the time of the counter read. -/
def pollOf (ticks : List Int) (ms readMs : Int) : Obs × Int :=
  (obsAt ms (counterAt ticks (milliseconds readMs)) false, milliseconds readMs)

/-- Six polls taken while `ticksEvery900` is running, each reading the counter
1 ms after the clock. -/
def healthyPolls : List (Obs × Int) :=
  [pollOf ticksEvery900 16 17, pollOf ticksEvery900 899 900, pollOf ticksEvery900 1799 1800,
   pollOf ticksEvery900 1800 1801, pollOf ticksEvery900 2699 2700,
   pollOf ticksEvery900 3500 3501]

/-- A main loop that enters its hook at 0, 400, 1399 and 2000 ms. -/
def lateTicks : List Int :=
  [milliseconds 0, milliseconds 400, milliseconds 1399, milliseconds 2000]

/-- Two polls while `lateTicks` is running: the first reads the clock at 398 ms
and the counter at 401 ms, the second reads both at 1398 ms. -/
def latePolls : List (Obs × Int) :=
  [pollOf lateTicks 398 401, pollOf lateTicks 1398 1398]

/-- Fifteen samples over twelve distinct stacks. -/
def sampledStacks : List Callstack :=
  [[1], [2], [5], [3], [4], [5], [6], [11, 12], [7], [8], [9], [10], [11, 12], [5], [13]]

/-- The table of `sampledStacks` in one of the orders lines 103-106 may leave it
in: counts non-increasing, the stacks sampled once in no particular order. -/
def sortedSample : List (Callstack × Nat) :=
  [([5], 3), ([11, 12], 2), ([13], 1), ([10], 1), ([9], 1), ([8], 1), ([7], 1), ([6], 1),
   ([4], 1), ([3], 1), ([2], 1), ([1], 1)]

/-- One request answered: lines 181 and 182 on the watchdog thread, delivery to
the main thread, lines 81, 82-86 and 88 in its handler, delivery to the
watchdog thread, lines 74 and 75 in its handler, and the load of line 183 that
returns true. -/
def oneRound : List Action :=
  [Action.watchdogThread, Action.watchdogThread, Action.deliverToMain, Action.mainThread,
   Action.mainThread, Action.mainThread, Action.deliverToWatchdog, Action.watchdogThread,
   Action.watchdogThread, Action.watchdogThread]

/-- The state `oneRound` ends in: the watchdog is about to read the buffer for
request 1. -/
def afterOneRound : Handshake :=
  { watchdog := WatchdogPc.readBuffer, watchdogHandler := WatchdogHandlerPc.notRunning,
    mainHandler := MainHandlerPc.notRunning, s_callstackCallback := true,
    pendingMain := false, pendingWatchdog := false, request := 1, signalFor := 1,
    serving := 1, writing := false, written := 1, returnFor := 1, acking := 1,
    flagFor := 1, observed := 1 }

/-! ## Theorems: the suppression gate -/

theorem level_lt_of_applyOps (ops : List GateOp) :
    ∀ s s1 : Suppression, s.level < 2 ^ 32 → applyOps s ops = some s1 → s1.level < 2 ^ 32 := by
  induction ops with
  | nil =>
    intro s s1 hs h
    simp only [applyOps, Option.some.injEq] at h
    subst h; exact hs
  | cons op ops ih =>
    intro s s1 hs h
    simp only [applyOps] at h
    cases hop : applyOp s op with
    | none => simp [hop] at h
    | some s2 =>
      rw [hop] at h
      refine ih s2 s1 ?_ h
      cases op with
      | beginSuppression =>
        simp only [applyOp, NWNXWatchcat_DisableUntilScriptExit, Option.some.injEq] at hop
        subst hop
        exact Nat.mod_lt _ (by norm_num)
      | endOnScriptExit =>
        simp only [applyOp, runScriptHook] at hop
        split at hop
        · split at hop
          · simp only [Option.some.injEq] at hop
            subst hop
            exact Nat.mod_lt _ (by norm_num)
          · simp at hop
        · simp only [Option.some.injEq] at hop
          subst hop; exact hs

/-- C6 (the code at the claim's own scenario): after begin, begin, end the level
is 1 and the flag is already false, so the flag is not "true iff depth > 0";
a second end finds the flag false, changes nothing, and the level stays 1. -/
theorem gate_flag_cleared_before_depth_zero :
    applyOps Suppression.init
        [GateOp.beginSuppression, GateOp.beginSuppression, GateOp.endOnScriptExit]
      = some { level := 1, disabled := false } ∧
    applyOps Suppression.init
        [GateOp.beginSuppression, GateOp.beginSuppression, GateOp.endOnScriptExit,
         GateOp.endOnScriptExit]
      = some { level := 1, disabled := false } := by
  decide

/-- C7 (counterexample): a script completion at depth zero, with no suppression
ever requested, returns normally and leaves the gate as it was; no assertion
fails. -/
theorem end_at_depth_zero_returns_normally :
    Suppression.init.level = 0 ∧
    applyOps Suppression.init [GateOp.endOnScriptExit] = some Suppression.init := by
  decide

/-- C7 (amended): in every state `s` reached by a sequence of gate operations,
a script completion that finds the flag false returns normally and changes
nothing; one that finds the flag true fails the assertion exactly when the
level is zero; and whenever it returns normally the level is either unchanged
or one less than a positive level, so the unsigned level never wraps below
zero. -/
theorem end_on_script_exit_guarded (ops : List GateOp) (s : Suppression)
    (hreach : applyOps Suppression.init ops = some s) :
    (s.disabled = false → runScriptHook s = some s) ∧
    (s.disabled = true → (runScriptHook s = none ↔ s.level = 0)) ∧
    (∀ s1, runScriptHook s = some s1 →
      s1.level = s.level ∨ (0 < s.level ∧ s1.level + 1 = s.level)) := by
  have hlt : s.level < 2 ^ 32 :=
    level_lt_of_applyOps ops Suppression.init s (by decide) hreach
  refine ⟨?_, ?_, ?_⟩
  · intro h
    simp [runScriptHook, h]
  · intro h
    simp only [runScriptHook, h, if_true]
    by_cases h0 : s.level > 0
    · simp only [h0, if_true]
      constructor
      · intro hc; cases hc
      · intro hc; omega
    · simp only [h0, if_false, true_iff]
      omega
  · intro s1 h
    simp only [runScriptHook] at h
    split at h
    · split at h
      · rename_i _ hpos
        simp only [Option.some.injEq] at h
        subst h
        right
        refine ⟨hpos, ?_⟩
        show (s.level + (2 ^ 32 - 1)) % 2 ^ 32 + 1 = s.level
        omega
      · simp at h
    · simp only [Option.some.injEq] at h
      subst h
      exact Or.inl rfl

/-- Witness for `end_on_script_exit_guarded` after one suppression request. -/
theorem end_on_script_exit_guarded_witness :
    (true = false → runScriptHook { level := 1, disabled := true }
        = some { level := 1, disabled := true }) ∧
    (true = true → (runScriptHook { level := 1, disabled := true } = none ↔ 1 = 0)) ∧
    (∀ s1, runScriptHook { level := 1, disabled := true } = some s1 →
      s1.level = 1 ∨ (0 < 1 ∧ s1.level + 1 = 1)) :=
  end_on_script_exit_guarded [GateOp.beginSuppression] { level := 1, disabled := true }
    (by decide)

/-! ## Theorems: the watchdog thread -/

theorem run_append (w : WatchcatThread) (xs ys : List Obs) :
    run w (xs ++ ys) =
      ((run (run w xs).1 ys).1, (run w xs).2 ++ (run (run w xs).1 ys).2) := by
  induction xs generalizing w with
  | nil => simp [run]
  | cons o os ih => simp [run, ih, List.append_assoc]

theorem run_exited (w : WatchcatThread) (h : w.mode = Mode.exited) (obs : List Obs) :
    run w obs = (w, []) := by
  induction obs with
  | nil => rfl
  | cons o os ih =>
    have hs : step w o = (w, []) := by simp [step, h]
    simp [run, hs, ih]

theorem stallStep_within (w : WatchcatThread) (now : Int) (cs : CallstackMap) (o : Obs)
    (h : stalledWithin w o) :
    stallStep w now cs o =
      ({ w with mode := Mode.stalling now (record cs (sampleOf o)) }, [Event.sampling]) := by
  obtain ⟨hc, he, hf, ht⟩ := h
  cases hfr : o.frames with
  | none => exact absurd hfr hf
  | some frames =>
    have hnot : ¬ (o.now - w.lastObservedAt >
        milliseconds (WATCHCAT_STALL_MSEC + WATCHCAT_KILL_MSEC)) := not_lt.mpr ht
    simp [stallStep, hc, he, hfr, sampleOf, hnot]

theorem run_stalling (w : WatchcatThread) (now : Int) (iters : List Obs) :
    ∀ cs : CallstackMap, (∀ o ∈ iters, stalledWithin w o) →
      run { w with mode := Mode.stalling now cs } iters =
        ({ w with mode := Mode.stalling now ((iters.map sampleOf).foldl record cs) },
          List.replicate iters.length Event.sampling) := by
  induction iters with
  | nil => intro cs _; rfl
  | cons o os ih =>
    intro cs h
    have ho : stalledWithin w o := h o (List.mem_cons_self _ _)
    have hos : ∀ x ∈ os, stalledWithin w x := fun x hx => h x (List.mem_cons_of_mem _ hx)
    have hs : step { w with mode := Mode.stalling now cs } o =
        ({ w with mode := Mode.stalling now (record cs (sampleOf o)) }, [Event.sampling]) := by
      have := stallStep_within { w with mode := Mode.stalling now cs } now cs o ho
      simpa [step] using this
    simp only [run, hs, List.map_cons, List.foldl_cons, List.length_cons, List.replicate_succ]
    rw [ih (record cs (sampleOf o)) hos]
    simp

theorem pollStep_detects (w : WatchcatThread) (o : Obs) (hexit : o.exit = false)
    (hcounter : o.counter ≤ w.lastObservedCounter)
    (hstall : milliseconds WATCHCAT_STALL_MSEC ≤ o.now - w.lastObservedAt)
    (hflag : o.disabled = false) :
    pollStep w o = ({ w with mode := Mode.stalling o.now [] }, [Event.stallDetected]) := by
  have h1 : ¬ (o.counter > w.lastObservedCounter) := not_lt.mpr hcounter
  have h2 : ¬ (o.now - w.lastObservedAt < milliseconds WATCHCAT_STALL_MSEC) := not_lt.mpr hstall
  simp [pollStep, hexit, h1, h2, hflag]

theorem record_ne_nil (cs : CallstackMap) (c : Callstack) : record cs c ≠ [] := by
  cases cs with
  | nil => simp [record]
  | cons e rest =>
    obtain ⟨k, n⟩ := e
    simp only [record]
    split <;> simp

theorem run_waiting (w : WatchcatThread) (hmode : w.mode = Mode.polling)
    (early : List Obs) (hearly : ∀ o ∈ early, waiting w o) : run w early = (w, []) := by
  induction early with
  | nil => rfl
  | cons o os ih =>
    obtain ⟨he, hc, ht⟩ := hearly o (List.mem_cons_self _ _)
    have h1 : ¬ (o.counter > w.lastObservedCounter) := not_lt.mpr hc
    have hs : step w o = (w, []) := by
      simp [step, hmode, pollStep, he, h1, ht]
    simp only [run, hs, List.nil_append]
    exact ih (fun x hx => hearly x (List.mem_cons_of_mem _ hx))

/-- C1: take any run of the polling loop in which the counter stays at the last
observed value and the program is not exiting. The polls before the stall
threshold do nothing; the first poll at or past it, the flag reading false,
logs the stall and enters the Stalling loop; every pass whose clock reading is
within stall + kill threshold of the last observed advance samples and goes on;
and the first pass whose reading is beyond it calls `DumpStacks` on a table
with at least one entry and then takes the fatal path, which was not taken
before. Sample requests are assumed to be answered. -/
theorem kill_path (w : WatchcatThread) (early : List Obs) (poll : Obs)
    (iters : List Obs) (last : Obs)
    (hmode : w.mode = Mode.polling)
    (hearly : ∀ o ∈ early, waiting w o)
    (hexit : poll.exit = false)
    (hcounter : poll.counter = w.lastObservedCounter)
    (hstall : milliseconds WATCHCAT_STALL_MSEC ≤ poll.now - w.lastObservedAt)
    (hflag : poll.disabled = false)
    (hiters : ∀ o ∈ iters, stalledWithin w o)
    (hlastc : last.counter = w.lastObservedCounter)
    (hlaste : last.exit = false)
    (hlastf : last.frames ≠ none)
    (hlastt : last.now - w.lastObservedAt >
      milliseconds (WATCHCAT_STALL_MSEC + WATCHCAT_KILL_MSEC)) :
    run w (early ++ poll :: iters ++ [last]) =
      ({ w with mode := Mode.killed },
        Event.stallDetected :: List.replicate iters.length Event.sampling ++
          [Event.sampling,
           Event.dumpStacks (recordAll (iters.map sampleOf ++ [sampleOf last])),
           Event.fatal]) ∧
    1 ≤ (recordAll (iters.map sampleOf ++ [sampleOf last])).length ∧
    Event.fatal ∉ (run w (early ++ poll :: iters)).2 := by
  have hwait := run_waiting w hmode early hearly
  have hpoll : step w poll = ({ w with mode := Mode.stalling poll.now [] },
      [Event.stallDetected]) := by
    simp only [step, hmode]
    exact pollStep_detects w poll hexit (le_of_eq hcounter) hstall hflag
  have hrun := run_stalling w poll.now iters [] hiters
  have hlast : step
      { w with mode := Mode.stalling poll.now ((iters.map sampleOf).foldl record []) } last =
      ({ w with mode := Mode.killed },
        [Event.sampling,
         Event.dumpStacks (recordAll (iters.map sampleOf ++ [sampleOf last])),
         Event.fatal]) := by
    cases hfr : last.frames with
    | none => exact absurd hfr hlastf
    | some frames =>
      simp [step, stallStep, hlastc, hlaste, hfr, hlastt, recordAll, sampleOf,
        List.foldl_append]
  refine ⟨?_, ?_, ?_⟩
  · rw [show early ++ poll :: iters ++ [last] = early ++ ([poll] ++ (iters ++ [last])) by simp,
      run_append, run_append, run_append, hwait]
    simp [run, hpoll, hrun, hlast]
  · have hne : recordAll (iters.map sampleOf ++ [sampleOf last]) ≠ [] := by
      simp only [recordAll, List.foldl_append, List.foldl_cons, List.foldl_nil]
      exact record_ne_nil _ _
    exact Nat.one_le_iff_ne_zero.mpr (fun h => hne (List.length_eq_zero.mp h))
  · rw [show early ++ poll :: iters = early ++ ([poll] ++ iters) by simp,
      run_append, run_append, hwait]
    simp [run, hpoll, hrun]

/-- Witness for `kill_path`: stalled since 0, polled at 16 and 992 ms, detected at
1008 ms, sampled at 1024 and 60000 ms, killed at the pass that reads 121008 ms. -/
theorem kill_path_witness :
    run stalledAtZero
        ([obsAt 16 7 false, obsAt 992 7 false] ++
          obsAt 1008 7 false :: [obsAt 1024 7 false, obsAt 60000 7 false] ++
          [obsAt 121008 7 false]) =
      ({ stalledAtZero with mode := Mode.killed },
        Event.stallDetected ::
          List.replicate [obsAt 1024 7 false, obsAt 60000 7 false].length Event.sampling ++
          [Event.sampling,
           Event.dumpStacks (recordAll
             ([obsAt 1024 7 false, obsAt 60000 7 false].map sampleOf ++
               [sampleOf (obsAt 121008 7 false)])),
           Event.fatal]) ∧
    1 ≤ (recordAll ([obsAt 1024 7 false, obsAt 60000 7 false].map sampleOf ++
        [sampleOf (obsAt 121008 7 false)])).length ∧
    Event.fatal ∉
      (run stalledAtZero ([obsAt 16 7 false, obsAt 992 7 false] ++
        obsAt 1008 7 false :: [obsAt 1024 7 false, obsAt 60000 7 false])).2 :=
  kill_path stalledAtZero [obsAt 16 7 false, obsAt 992 7 false] (obsAt 1008 7 false)
    [obsAt 1024 7 false, obsAt 60000 7 false] (obsAt 121008 7 false)
    (by decide) (by decide) (by decide) (by decide) (by decide) (by decide)
    (by decide) (by decide) (by decide) (by decide) (by decide)

set_option maxRecDepth 1000000 in
/-- C8 (the code at the claim's scenario): the counter stalls at 0 and is seen to
advance at 3008 ms, yet the recovery line prints 1008, the elapsed time at
the poll that detected the stall, and not the stall's duration; the value
printed does not depend on any clock reading taken after detection. -/
theorem recovery_log_is_detection_time :
    (run stalledAtZero recoveryScenario).2 =
      Event.stallDetected :: List.replicate 125 Event.sampling ++
        [Event.recovered 1008, Event.dumpStacks [([100, 200], 125)]] ∧
    (∀ (w : WatchcatThread) (now : Int) (cs : CallstackMap) (o : Obs) (t : Int),
      o.counter ≠ w.lastObservedCounter →
        (stallStep w now cs { o with now := t }).2 =
          [Event.recovered (duration_cast_milliseconds (now - w.lastObservedAt)),
           Event.dumpStacks cs]) := by
  refine ⟨by decide, ?_⟩
  intro w now cs o t h
  simp [stallStep, h]

/-- C2 (counterexample): the counter stays at 7 from 0 until after the polls at
1008 and 2000 ms and has advanced at the poll of 3008 ms, but the suppression
flag reads true: no stall is logged, the Stalling loop is never entered, and
the run passes from polling to polling with no event at all. -/
theorem suppressed_stall_never_enters_stalling :
    run stalledAtZero [obsAt 1008 7 true, obsAt 2000 7 true, obsAt 3008 8 true] =
      ({ lastObservedCounter := 8, lastObservedAt := milliseconds 3008,
         mode := Mode.polling }, []) := by
  decide

/-- C2 (amended): when a poll with the program not exiting and the suppression
flag false finds the counter not advanced at least the stall threshold after
the last observed advance, the watchdog logs the stall and enters the Stalling
loop; if every pass that finds the counter unchanged reads the clock within
stall + kill threshold, then the pass that finds the counter changed leaves
through the recovery branch (recovery line, then `DumpStacks`), control is back
in the polling loop, and the fatal path was never taken. -/
theorem recovery_without_kill (w : WatchcatThread) (poll : Obs) (iters : List Obs)
    (last : Obs)
    (hmode : w.mode = Mode.polling)
    (hexit : poll.exit = false)
    (hcounter : poll.counter ≤ w.lastObservedCounter)
    (hstall : milliseconds WATCHCAT_STALL_MSEC ≤ poll.now - w.lastObservedAt)
    (hflag : poll.disabled = false)
    (hiters : ∀ o ∈ iters, stalledWithin w o)
    (hlast : last.counter ≠ w.lastObservedCounter) :
    (run w [poll]) = ({ w with mode := Mode.stalling poll.now [] }, [Event.stallDetected]) ∧
    run w (poll :: iters ++ [last]) =
      ({ w with mode := Mode.polling },
        Event.stallDetected :: List.replicate iters.length Event.sampling ++
          [Event.recovered (duration_cast_milliseconds (poll.now - w.lastObservedAt)),
           Event.dumpStacks (recordAll (iters.map sampleOf))]) ∧
    Event.fatal ∉ (run w (poll :: iters ++ [last])).2 := by
  have hpoll : step w poll = ({ w with mode := Mode.stalling poll.now [] },
      [Event.stallDetected]) := by
    simp only [step, hmode]
    exact pollStep_detects w poll hexit hcounter hstall hflag
  have hrun := run_stalling w poll.now iters [] hiters
  have hstep : step
      { w with mode := Mode.stalling poll.now ((iters.map sampleOf).foldl record []) } last =
      ({ w with mode := Mode.polling },
        [Event.recovered (duration_cast_milliseconds (poll.now - w.lastObservedAt)),
         Event.dumpStacks (recordAll (iters.map sampleOf))]) := by
    simp [step, stallStep, hlast, recordAll]
  have hall : run w (poll :: iters ++ [last]) =
      ({ w with mode := Mode.polling },
        Event.stallDetected :: List.replicate iters.length Event.sampling ++
          [Event.recovered (duration_cast_milliseconds (poll.now - w.lastObservedAt)),
           Event.dumpStacks (recordAll (iters.map sampleOf))]) := by
    rw [show poll :: iters ++ [last] = [poll] ++ (iters ++ [last]) from rfl, run_append,
      run_append]
    simp [run, hpoll, hrun, hstep]
  refine ⟨by simp [run, hpoll], hall, ?_⟩
  rw [hall]
  simp

/-- Witness for `recovery_without_kill`: stalled since 0, detected at 1008 ms,
sampled at 1024 and 2992 ms, found advanced at 3008 ms. -/
theorem recovery_without_kill_witness :
    (run stalledAtZero [obsAt 1008 7 false]) =
      ({ stalledAtZero with mode := Mode.stalling (obsAt 1008 7 false).now [] },
        [Event.stallDetected]) ∧
    run stalledAtZero
        (obsAt 1008 7 false :: [obsAt 1024 7 false, obsAt 2992 7 false] ++
          [obsAt 3008 8 false]) =
      ({ stalledAtZero with mode := Mode.polling },
        Event.stallDetected ::
          List.replicate [obsAt 1024 7 false, obsAt 2992 7 false].length Event.sampling ++
          [Event.recovered (duration_cast_milliseconds
             ((obsAt 1008 7 false).now - stalledAtZero.lastObservedAt)),
           Event.dumpStacks (recordAll
             ([obsAt 1024 7 false, obsAt 2992 7 false].map sampleOf))]) ∧
    Event.fatal ∉
      (run stalledAtZero
        (obsAt 1008 7 false :: [obsAt 1024 7 false, obsAt 2992 7 false] ++
          [obsAt 3008 8 false])).2 :=
  recovery_without_kill stalledAtZero (obsAt 1008 7 false)
    [obsAt 1024 7 false, obsAt 2992 7 false] (obsAt 3008 8 false)
    (by decide) (by decide) (by decide) (by decide) (by decide) (by decide) (by decide)

/-- C4 (the code at the failing input): the stall is detected at 1008 ms with the
flag false; the flag reads true at the Stalling passes of 1024 and 121008 ms.
Both passes sample and count, and the second, 121008 ms after the last observed
advance, runs the kill-threshold check all the same and takes the fatal path:
the Stalling loop never reads the flag. -/
theorem suppressed_stalling_pass_still_kills :
    (obsAt 1024 7 true).disabled = true ∧ (obsAt 121008 7 true).disabled = true ∧
    run stalledAtZero [obsAt 1008 7 false, obsAt 1024 7 true, obsAt 121008 7 true] =
      ({ stalledAtZero with mode := Mode.killed },
        [Event.stallDetected, Event.sampling, Event.sampling,
         Event.dumpStacks [([100, 200], 2)], Event.fatal]) ∧
    (∀ (w : WatchcatThread) (now : Int) (cs : CallstackMap) (o : Obs) (b : Bool),
      stallStep w now cs { o with disabled := b } = stallStep w now cs o) := by
  refine ⟨by decide, by decide, by decide, ?_⟩
  intro w now cs o b
  simp [stallStep]

/-- C5: if the suppression flag reads true at every iteration from the moment the
counter was last seen to advance until it advances again, then however long the
counter stays put the run never takes the fatal path; indeed it never logs a
stall, never samples, and control never leaves the polling loop except by the
thread exiting. -/
theorem suppression_held_never_kills (w : WatchcatThread) (obs : List Obs)
    (hmode : w.mode = Mode.polling) (hsupp : suppressedWhileStalled w obs) :
    Event.fatal ∉ (run w obs).2 ∧
    (∀ e ∈ (run w obs).2, e = Event.exiting) ∧
    ((run w obs).1.mode = Mode.polling ∨ (run w obs).1.mode = Mode.exited) := by
  have key : ∀ (obs : List Obs) (w : WatchcatThread), w.mode = Mode.polling →
      suppressedWhileStalled w obs →
      (∀ e ∈ (run w obs).2, e = Event.exiting) ∧
      ((run w obs).1.mode = Mode.polling ∨ (run w obs).1.mode = Mode.exited) := by
    intro obs
    induction obs with
    | nil => intro w hm _; simp [run, hm]
    | cons o os ih =>
      intro w hm hs
      obtain ⟨hflag, hrest⟩ := hs
      have hstep : (∀ e ∈ (step w o).2, e = Event.exiting) ∧
          ((step w o).1.mode = Mode.polling ∨ (step w o).1.mode = Mode.exited) := by
        simp only [step, hm, pollStep]
        split
        · simp
        · split
          · simp
          · rename_i hnot
            have hle : o.counter ≤ w.lastObservedCounter := not_lt.mp hnot
            have hd := hflag hle
            split
            · simp [hm]
            · simp [hd, hm]
      rcases hstep.2 with hp | he
      · have h2 := ih (step w o).1 hp hrest
        refine ⟨?_, h2.2⟩
        intro e he
        simp only [run, List.mem_append] at he
        rcases he with he | he
        · exact hstep.1 e he
        · exact h2.1 e he
      · have h2 := run_exited (step w o).1 he os
        simp only [run, h2, List.append_nil]
        exact ⟨hstep.1, Or.inr he⟩
  have h := key obs w hmode hsupp
  refine ⟨?_, h.1, h.2⟩
  intro hf
  have := h.1 Event.fatal hf
  cases this

/-- Witness for `suppression_held_never_kills`: the counter is seen to advance at
16 ms, then stays put with the flag set at polls 200000 and 400000 ms later,
and advances again after the flag was cleared. -/
theorem suppression_held_never_kills_witness :
    Event.fatal ∉ (run WatchcatThread.init
      [obsAt 16 1 false, obsAt 200016 1 true, obsAt 400016 1 true, obsAt 400032 2 false]).2 ∧
    (∀ e ∈ (run WatchcatThread.init
      [obsAt 16 1 false, obsAt 200016 1 true, obsAt 400016 1 true, obsAt 400032 2 false]).2,
        e = Event.exiting) ∧
    ((run WatchcatThread.init
      [obsAt 16 1 false, obsAt 200016 1 true, obsAt 400016 1 true,
        obsAt 400032 2 false]).1.mode = Mode.polling ∨
     (run WatchcatThread.init
      [obsAt 16 1 false, obsAt 200016 1 true, obsAt 400016 1 true,
        obsAt 400032 2 false]).1.mode = Mode.exited) :=
  suppression_held_never_kills WatchcatThread.init
    [obsAt 16 1 false, obsAt 200016 1 true, obsAt 400016 1 true, obsAt 400032 2 false]
    (by decide) ⟨by decide, by decide, by decide, by decide, trivial⟩

/-! ## Theorems: ticks closer than the stall threshold -/

theorem foldl_mainLoopHook_counter (l : List Int) :
    ∀ h : Host, h.s_mainThreadCounter + l.length < 2 ^ 64 →
      (l.foldl (fun h _ => mainLoopHook h) h).s_mainThreadCounter =
        h.s_mainThreadCounter + l.length := by
  induction l with
  | nil => intro h _; simp
  | cons a l ih =>
    intro h hb
    simp only [List.length_cons] at hb
    simp only [List.foldl_cons, List.length_cons]
    have h1 : (mainLoopHook h).s_mainThreadCounter = h.s_mainThreadCounter + 1 := by
      show (h.s_mainThreadCounter + 1) % 2 ^ 64 = h.s_mainThreadCounter + 1
      exact Nat.mod_eq_of_lt (by omega)
    rw [ih (mainLoopHook h) (by rw [h1]; omega), h1]
    omega

theorem counterAt_eq (ticks : List Int) (t : Int) (hlen : ticks.length < 2 ^ 64) :
    counterAt ticks t = ticks.countP (fun tick => decide (tick ≤ t)) := by
  unfold counterAt
  have hle := List.length_filter_le (fun tick => decide (tick ≤ t)) ticks
  rw [foldl_mainLoopHook_counter _ Host.init (by
    show 0 + _ < 2 ^ 64
    omega)]
  show 0 + _ = _
  rw [List.countP_eq_length_filter]
  omega

theorem countP_lt_of_tick_between (ticks : List Int) (s t tick : Int)
    (hmem : tick ∈ ticks) (hs : s < tick) (ht : tick ≤ t) :
    ticks.countP (fun x => decide (x ≤ s)) < ticks.countP (fun x => decide (x ≤ t)) := by
  induction ticks with
  | nil => cases hmem
  | cons a l ih =>
    have hmono : l.countP (fun x => decide (x ≤ s)) ≤ l.countP (fun x => decide (x ≤ t)) := by
      apply List.countP_mono_left
      intro x _ hx
      simp only [decide_eq_true_eq] at hx ⊢
      omega
    simp only [List.countP_cons]
    rcases List.mem_cons.mp hmem with h | h
    · subst h
      have h1 : decide (tick ≤ s) = false := by simp; omega
      have h2 : decide (tick ≤ t) = true := by simp; omega
      simp only [h1, h2]
      simp
      omega
    · have := ih h
      by_cases has : a ≤ s
      · have hat : a ≤ t := by omega
        simp [has, hat]
        omega
      · by_cases hat : a ≤ t
        · simp [has, hat]
          omega
        · simp [has, hat]
          omega

theorem recent_tick (gap : Int) (ticks : List Int) (t : Int)
    (hgap : ticksCloserThan gap ticks) (haround : tickingAround ticks t) :
    ∃ tick ∈ ticks, tick ≤ t ∧ t - tick < gap := by
  unfold ticksCloserThan at hgap
  obtain ⟨⟨a, ha, hat⟩, ⟨b, hb, htb⟩⟩ := haround
  induction ticks generalizing a b with
  | nil => cases ha
  | cons x l ih =>
    cases l with
    | nil =>
      simp only [List.mem_singleton] at ha hb
      omega
    | cons y l =>
      rw [List.chain'_cons] at hgap
      obtain ⟨⟨hxy, hd⟩, hchain⟩ := hgap
      by_cases hyt : y ≤ t
      · have hb2 : b ∈ y :: l := by
          rcases List.mem_cons.mp hb with h | h
          · omega
          · exact h
        obtain ⟨tick, hm, h1, h2⟩ := ih hchain y (List.mem_cons_self _ _) hyt b hb2 htb
        exact ⟨tick, List.mem_cons_of_mem _ hm, h1, h2⟩
      · have hxt : x ≤ t := by
          rcases List.mem_cons.mp ha with h | h
          · omega
          · have hya : y ≤ a := by
              rcases List.mem_cons.mp h with h2 | h2
              · omega
              · have hp : (y :: l).Pairwise (fun p q : Int => p ≤ q) := by
                  have hc : List.Chain' (fun p q : Int => p ≤ q) (y :: l) :=
                    hchain.imp (fun _ _ h => h.1)
                  exact List.chain'_iff_pairwise.mp hc
                exact (List.pairwise_cons.mp hp).1 a h2
            omega
        exact ⟨x, List.mem_cons_self _ _, hxt, by omega⟩

theorem poll_keeps_healthy (ticks : List Int) (delay : Int) (w : WatchcatThread)
    (p : Obs × Int) (hlen : ticks.length < 2 ^ 64)
    (hgap : ticksCloserThan (milliseconds WATCHCAT_STALL_MSEC - delay) ticks)
    (hp : readsInOrder ticks delay p)
    (hmode : w.mode = Mode.polling)
    (hlast : w.lastObservedCounter = 0 ∨
      ∃ r, w.lastObservedCounter = counterAt ticks r ∧ w.lastObservedAt ≤ r ∧
        r - w.lastObservedAt ≤ delay) :
    (∀ e ∈ (step w p.1).2, e = Event.exiting) ∧
    ((step w p.1).1.mode = Mode.exited ∨
      ((step w p.1).1.mode = Mode.polling ∧
        ((step w p.1).1.lastObservedCounter = 0 ∨
          ∃ r, (step w p.1).1.lastObservedCounter = counterAt ticks r ∧
            (step w p.1).1.lastObservedAt ≤ r ∧
            r - (step w p.1).1.lastObservedAt ≤ delay))) := by
  obtain ⟨hnow, hdelay, haround, hcounter⟩ := hp
  simp only [step, hmode, pollStep]
  split
  · simp
  · split
    · refine ⟨by simp, Or.inr ⟨rfl, Or.inr ⟨p.2, hcounter, hnow, hdelay⟩⟩⟩
    · rename_i hnot
      split
      · exact ⟨by simp, Or.inr ⟨hmode, hlast⟩⟩
      · rename_i hlate
        exfalso
        apply hnot
        obtain ⟨tick, hmem, hle, hnear⟩ := recent_tick _ ticks p.2 hgap haround
        rw [hcounter, counterAt_eq ticks p.2 hlen]
        rcases hlast with h0 | ⟨r, hc, hr1, hr2⟩
        · rw [h0]
          exact List.countP_pos_iff.mpr ⟨tick, hmem, by simpa using hle⟩
        · rw [hc, counterAt_eq ticks _ hlen]
          exact countP_lt_of_tick_between ticks _ _ tick hmem (by omega) hle

/-- C3 (counterexample): the main loop enters its hook at 0, 400, 1399 and 2000 ms,
always less than the stall threshold apart. The first poll reads the clock at
398 ms and the counter, 3 ms later, at 401 ms; the second reads both at
1398 ms. The counter reads 2 both times, the clock readings are 1000 ms
apart, and the second poll logs a stall and enters the Stalling loop. -/
theorem false_stall_when_counter_is_read_late :
    ticksCloserThanStall lateTicks ∧
    (∀ p ∈ latePolls,
      p.1.now ≤ p.2 ∧ tickingAround lateTicks p.2 ∧ p.1.counter = counterAt lateTicks p.2) ∧
    run WatchcatThread.init (latePolls.map Prod.fst) =
      ({ lastObservedCounter := 2, lastObservedAt := milliseconds 398,
         mode := Mode.stalling (milliseconds 1398) [] }, [Event.stallDetected]) := by
  refine ⟨?_, by decide, by decide⟩
  simp [ticksCloserThanStall, ticksCloserThan, lateTicks, milliseconds, WATCHCAT_STALL_MSEC]

/-- C3 (amended): from the thread's initial state (last observed counter 0 at the
clock's epoch), if every poll is taken while the main loop is running (a hook
entry at or before its counter read, so the counter is at least 1, and one
after it) and reads the counter no more than `delay` after it read the clock,
and the main loop enters its hook at times less than the stall threshold minus
`delay` apart, then no poll detects a stall: nothing but the exit line is ever
logged, no stack is sampled, the fatal path is not taken, and control stays in
the polling loop unless the thread exits. -/
theorem no_false_stall (ticks : List Int) (delay : Int) (polls : List (Obs × Int))
    (hlen : ticks.length < 2 ^ 64)
    (hgap : ticksCloserThan (milliseconds WATCHCAT_STALL_MSEC - delay) ticks)
    (hpolls : ∀ p ∈ polls, readsInOrder ticks delay p) :
    Event.stallDetected ∉ (run WatchcatThread.init (polls.map Prod.fst)).2 ∧
    Event.sampling ∉ (run WatchcatThread.init (polls.map Prod.fst)).2 ∧
    Event.fatal ∉ (run WatchcatThread.init (polls.map Prod.fst)).2 ∧
    (∀ e ∈ (run WatchcatThread.init (polls.map Prod.fst)).2, e = Event.exiting) ∧
    ((run WatchcatThread.init (polls.map Prod.fst)).1.mode = Mode.polling ∨
      (run WatchcatThread.init (polls.map Prod.fst)).1.mode = Mode.exited) := by
  have key : ∀ (polls : List (Obs × Int)) (w : WatchcatThread),
      (∀ p ∈ polls, readsInOrder ticks delay p) →
      w.mode = Mode.polling →
      (w.lastObservedCounter = 0 ∨
        ∃ r, w.lastObservedCounter = counterAt ticks r ∧ w.lastObservedAt ≤ r ∧
          r - w.lastObservedAt ≤ delay) →
      (∀ e ∈ (run w (polls.map Prod.fst)).2, e = Event.exiting) ∧
      ((run w (polls.map Prod.fst)).1.mode = Mode.polling ∨
        (run w (polls.map Prod.fst)).1.mode = Mode.exited) := by
    intro polls
    induction polls with
    | nil => intro w _ hm _; simp [run, hm]
    | cons p ps ih =>
      intro w hp hm hl
      have hps : ∀ x ∈ ps, readsInOrder ticks delay x :=
        fun x hx => hp x (List.mem_cons_of_mem _ hx)
      obtain ⟨hev, hnext⟩ :=
        poll_keeps_healthy ticks delay w p hlen hgap (hp p (List.mem_cons_self _ _)) hm hl
      simp only [List.map_cons]
      rcases hnext with he | ⟨hp2, hl2⟩
      · have h2 := run_exited (step w p.1).1 he (ps.map Prod.fst)
        simp only [run, h2, List.append_nil]
        exact ⟨hev, Or.inr he⟩
      · have h2 := ih (step w p.1).1 hps hp2 hl2
        refine ⟨?_, h2.2⟩
        intro e he
        simp only [run, List.mem_append] at he
        rcases he with he | he
        · exact hev e he
        · exact h2.1 e he
  have h := key polls WatchcatThread.init hpolls rfl (Or.inl rfl)
  refine ⟨?_, ?_, ?_, h.1, h.2⟩
  · intro hf; cases h.1 _ hf
  · intro hf; cases h.1 _ hf
  · intro hf; cases h.1 _ hf

/-- Witness for `no_false_stall`: hook entries every 900 ms from 0 to 3600 ms,
polls whose clock reads 16, 899, 1799, 1800, 2699 and 3500 ms and whose counter
is read 1 ms later, and 1 ms as the bound on that delay. -/
theorem no_false_stall_witness :
    Event.stallDetected ∉ (run WatchcatThread.init (healthyPolls.map Prod.fst)).2 ∧
    Event.sampling ∉ (run WatchcatThread.init (healthyPolls.map Prod.fst)).2 ∧
    Event.fatal ∉ (run WatchcatThread.init (healthyPolls.map Prod.fst)).2 ∧
    (∀ e ∈ (run WatchcatThread.init (healthyPolls.map Prod.fst)).2, e = Event.exiting) ∧
    ((run WatchcatThread.init (healthyPolls.map Prod.fst)).1.mode = Mode.polling ∨
      (run WatchcatThread.init (healthyPolls.map Prod.fst)).1.mode = Mode.exited) :=
  no_false_stall ticksEvery900 (milliseconds 1) healthyPolls (by decide)
    (by simp [ticksCloserThan, ticksEvery900, milliseconds, WATCHCAT_STALL_MSEC])
    (by decide)

/-! ## Theorems: the callstack table and the report -/

theorem keys_record (m : CallstackMap) (x : Callstack) :
    (record m x).map Prod.fst =
      if x ∈ m.map Prod.fst then m.map Prod.fst else m.map Prod.fst ++ [x] := by
  induction m with
  | nil => simp [record]
  | cons e rest ih =>
    obtain ⟨k, n⟩ := e
    simp only [record, CallstackEqual]
    by_cases hk : k = x
    · simp [hk]
    · have hx : ¬ x = k := fun h => hk h.symm
      simp only [hk, decide_False, Bool.false_eq_true, if_false, List.map_cons, ih,
        List.mem_cons, hx, false_or]
      split <;> simp

theorem mem_record (m : CallstackMap) (x : Callstack) (e : Callstack × Nat)
    (hnd : (m.map Prod.fst).Nodup) (he : e ∈ record m x) :
    (e ∈ m ∧ e.1 ≠ x) ∨
    (e.1 = x ∧ ((∃ n, (x, n) ∈ m ∧ e.2 = (n + 1) % 2 ^ 64) ∨
      (x ∉ m.map Prod.fst ∧ e.2 = 1))) := by
  induction m with
  | nil =>
    simp only [record, List.mem_singleton] at he
    subst he
    right
    simp
  | cons a rest ih =>
    obtain ⟨k, n⟩ := a
    simp only [List.map_cons, List.nodup_cons] at hnd
    obtain ⟨hk_notin, hnd_rest⟩ := hnd
    simp only [record, CallstackEqual] at he
    by_cases hk : k = x
    · simp only [hk, decide_True, if_true, List.mem_cons] at he
      rcases he with he | he
      · subst he
        right
        exact ⟨rfl, Or.inl ⟨n, by simp [hk], rfl⟩⟩
      · left
        refine ⟨List.mem_cons_of_mem _ he, ?_⟩
        intro hex
        apply hk_notin
        rw [hk, ← hex]
        exact List.mem_map_of_mem Prod.fst he
    · simp only [hk, decide_False, Bool.false_eq_true, if_false, List.mem_cons] at he
      rcases he with he | he
      · subst he
        left
        exact ⟨List.mem_cons_self _ _, hk⟩
      · rcases ih hnd_rest he with ⟨h1, h2⟩ | ⟨h1, h2⟩
        · left
          exact ⟨List.mem_cons_of_mem _ h1, h2⟩
        · right
          refine ⟨h1, ?_⟩
          rcases h2 with ⟨n1, hn1, hn2⟩ | ⟨hn1, hn2⟩
          · exact Or.inl ⟨n1, List.mem_cons_of_mem _ hn1, hn2⟩
          · right
            refine ⟨?_, hn2⟩
            simp only [List.map_cons, List.mem_cons, not_or]
            exact ⟨fun h => hk h.symm, hn1⟩

/-- The table built from `p` has one node per distinct sample, whose count is the
number of times the sample occurs in `p`. -/
theorem recordAll_spec (p : List Callstack) (hlen : p.length < 2 ^ 64) :
    ((recordAll p).map Prod.fst).Nodup ∧
    (∀ e ∈ recordAll p, e.1 ∈ p ∧ e.2 = p.count e.1) ∧
    (∀ c ∈ p, c ∈ (recordAll p).map Prod.fst) := by
  induction p using List.reverseRecOn with
  | nil => simp [recordAll]
  | append_singleton p x ih =>
    have hlen1 : p.length + 1 < 2 ^ 64 := by simpa using hlen
    obtain ⟨hnd, hcount, hkeys⟩ := ih (by omega)
    have hrec : recordAll (p ++ [x]) = record (recordAll p) x := by
      simp [recordAll, List.foldl_append]
    have hk := keys_record (recordAll p) x
    rw [hrec]
    refine ⟨?_, ?_, ?_⟩
    · rw [hk]
      split
      · exact hnd
      · rename_i hx
        exact List.Nodup.append hnd (List.nodup_singleton x) (by
          intro a ha hax
          simp only [List.mem_singleton] at hax
          subst hax
          exact hx ha)
    · intro e he
      have hcx : p.count x ≤ p.length := List.count_le_length x p
      rcases mem_record (recordAll p) x e hnd he with ⟨h1, h2⟩ | ⟨h1, h2⟩
      · obtain ⟨hm, hc⟩ := hcount e h1
        refine ⟨List.mem_append_left _ hm, ?_⟩
        rw [List.count_append, hc]
        simp [List.count_cons, h2.symm, Ne.symm h2]
      · refine ⟨by simp [h1], ?_⟩
        rw [h1, List.count_append]
        simp only [List.count_cons, List.count_nil, beq_self_eq_true, if_true]
        rcases h2 with ⟨n, hn1, hn2⟩ | ⟨hn1, hn2⟩
        · have := (hcount (x, n) hn1).2
          simp only at this
          rw [hn2, this]
          exact Nat.mod_eq_of_lt (by omega)
        · have hxp : x ∉ p := fun h => hn1 (hkeys x h)
          rw [hn2, List.count_eq_zero_of_not_mem hxp]
    · intro c hc
      rw [hk]
      simp only [List.mem_append, List.mem_singleton] at hc
      split
      · rename_i hx
        rcases hc with hc | hc
        · exact hkeys c hc
        · rw [hc]; exact hx
      · rcases hc with hc | hc
        · exact List.mem_append_left _ (hkeys c hc)
        · simp [hc]

theorem recordAll_length (p : List Callstack) (hlen : p.length < 2 ^ 64) :
    (recordAll p).length = p.dedup.length := by
  obtain ⟨hnd, hcount, hkeys⟩ := recordAll_spec p hlen
  have hperm : ((recordAll p).map Prod.fst).Perm p.dedup := by
    rw [List.perm_ext_iff_of_nodup hnd (List.nodup_dedup p)]
    intro c
    constructor
    · intro hc
      obtain ⟨e, he, rfl⟩ := List.mem_map.mp hc
      exact List.mem_dedup.mpr (hcount e he).1
    · intro hc
      exact hkeys c (List.mem_dedup.mp hc)
  simpa using hperm.length_eq

theorem exists_sortedCopyOf (m : CallstackMap) : ∃ sorted, sortedCopyOf m sorted := by
  haveI : IsTotal (Callstack × Nat) (fun a b => b.2 ≤ a.2) :=
    ⟨fun a b => Nat.le_total b.2 a.2⟩
  haveI : IsTrans (Callstack × Nat) (fun a b => b.2 ≤ a.2) :=
    ⟨fun _ _ _ h1 h2 => Nat.le_trans h2 h1⟩
  refine ⟨List.insertionSort (fun a b => b.2 ≤ a.2) m, List.perm_insertionSort _ m, ?_⟩
  have hs := List.sorted_insertionSort (fun a b : Callstack × Nat => b.2 ≤ a.2) m
  refine List.Pairwise.imp ?_ hs
  intro a b h
  simp only [moreOccurrences, decide_eq_false_iff_not, not_lt, gt_iff_lt]
  exact h

theorem sortedCopyOf_sorted (m sorted : List (Callstack × Nat))
    (h : sortedCopyOf m sorted) : sorted.Pairwise (fun a b => b.2 ≤ a.2) := by
  refine List.Pairwise.imp ?_ h.2
  intro a b hab
  simpa [moreOccurrences] using hab

theorem numstacks_eq (d : Nat) (h : d < 2 ^ 31) : numstacks d = min 10 d := by
  unfold numstacks to_size_t static_cast_int WATCHCAT_TOP_N_STACKS
  have h1 : d % 2 ^ 32 = d := Nat.mod_eq_of_lt (by omega)
  rw [h1]
  simp only [h, if_true]
  omega

theorem dumpSorted_eq (sorted : List (Callstack × Nat)) (h : sorted.length < 2 ^ 31) :
    dumpSorted sorted = some (dumpEntries 0 (sorted.take 10) ++
      (if 10 < sorted.length then [LogLine.andMore (sorted.length - 10)] else [])) := by
  unfold dumpSorted
  simp only [numstacks_eq sorted.length h]
  have hle : min 10 sorted.length ≤ sorted.length := Nat.min_le_right _ _
  have htake : sorted.take (min 10 sorted.length) = sorted.take 10 := by
    rw [List.take_eq_take]
    omega
  simp only [hle, if_true, htake]
  by_cases h10 : 10 < sorted.length
  · have h2 : min 10 sorted.length < sorted.length := by omega
    have h3 : sorted.length - min 10 sorted.length = sorted.length - 10 := by omega
    simp [h10, h2, h3]
  · have h2 : ¬ min 10 sorted.length < sorted.length := by omega
    simp [h10, h2]

theorem dumpEntries_eq (l : List (Callstack × Nat)) :
    ∀ i, dumpEntries i l = (l.enumFrom i).flatMap entryLines := by
  induction l with
  | nil => intro i; rfl
  | cons e rest ih =>
    intro i
    obtain ⟨c, n⟩ := e
    simp [dumpEntries, ih, entryLines, List.enumFrom]

theorem entryOf_frames (c : Callstack) : (c.map LogLine.frame).filterMap entryOf = [] := by
  induction c with
  | nil => rfl
  | cons a t ih => simp [List.filterMap_cons, entryOf, ih]

theorem entryOf_dumpEntries (l : List (Callstack × Nat)) :
    ∀ i, (dumpEntries i l).filterMap entryOf =
      (l.enumFrom i).map (fun p => (p.1, p.2.2)) := by
  induction l with
  | nil => intro i; rfl
  | cons e rest ih =>
    intro i
    obtain ⟨c, n⟩ := e
    simp [dumpEntries, List.filterMap_cons, List.filterMap_append, entryOf, entryOf_frames,
      ih, List.enumFrom]

theorem andMore_not_mem_dumpEntries (l : List (Callstack × Nat)) (k : Nat) :
    ∀ i, LogLine.andMore k ∉ dumpEntries i l := by
  induction l with
  | nil => intro i; simp [dumpEntries]
  | cons e rest ih =>
    intro i
    obtain ⟨c, n⟩ := e
    simp [dumpEntries, ih]

theorem count_eq_one_of_nodup (l : List Callstack) (c : Callstack) (hnd : l.Nodup)
    (hc : c ∈ l) : l.count c = 1 := by
  induction l with
  | nil => cases hc
  | cons b t ih =>
    obtain ⟨hb, ht⟩ := List.nodup_cons.mp hnd
    rw [List.count_cons]
    by_cases hbc : b = c
    · subst hbc
      simp [List.count_eq_zero_of_not_mem hb]
    · have hct : c ∈ t := by
        rcases List.mem_cons.mp hc with h | h
        · exact absurd h.symm hbc
        · exact h
      simp [ih ht hct, hbc]

/-- C9: for samples recorded one by one into an empty table (fewer than 2^64 of
them, fewer than 2^31 distinct, so that the `size_t` counts and the `int` cast of
the size are exact), the table has exactly one node per distinct frame sequence
and its count is the number of occurrences; the same sequence K times gives the
single node with count K, and distinct sequences give one node each with count
1. `DumpStacks` has an output, and whatever order the container and `std::sort`
choose, the output is a list of lines made of min(10, d) entries, numbered from
0, each its count line followed by its frames, with counts in non-increasing
order, the entries shown and the nodes omitted making up the table, no shown
entry having a smaller count than an omitted node, followed by the line
"... and d - 10 more" exactly when d > 10. -/
theorem callstack_aggregation_and_ranking (samples : List Callstack)
    (hcount : samples.length < 2 ^ 64) (hsize : samples.dedup.length < 2 ^ 31) :
    ((recordAll samples).map Prod.fst).Nodup ∧
    (∀ c n, (c, n) ∈ recordAll samples ↔ (c ∈ samples ∧ n = samples.count c)) ∧
    (recordAll samples).length = samples.dedup.length ∧
    (∀ c, samples ≠ [] → (∀ x ∈ samples, x = c) →
      recordAll samples = [(c, samples.length)]) ∧
    (samples.Nodup →
      (recordAll samples).length = samples.length ∧ ∀ e ∈ recordAll samples, e.2 = 1) ∧
    (∃ output, DumpStacks (recordAll samples) output) ∧
    ∀ output, DumpStacks (recordAll samples) output →
      ∃ (lines : List LogLine) (shown omitted : List (Callstack × Nat)),
        output = some lines ∧
        (shown ++ omitted).Perm (recordAll samples) ∧
        (shown.length : Int) = min WATCHCAT_TOP_N_STACKS (samples.dedup.length : Int) ∧
        shown.Pairwise (fun a b => b.2 ≤ a.2) ∧
        (∀ a ∈ shown, ∀ b ∈ omitted, b.2 ≤ a.2) ∧
        lines = shown.enum.flatMap entryLines ++
          (if 10 < samples.dedup.length then [LogLine.andMore (samples.dedup.length - 10)]
           else []) ∧
        lines.filterMap entryOf = shown.enum.map (fun p => (p.1, p.2.2)) ∧
        (lines.filterMap entryOf).length = min 10 samples.dedup.length ∧
        ((lines.filterMap entryOf).map Prod.snd).Pairwise (fun a b => b ≤ a) ∧
        (∀ k, LogLine.andMore k ∈ lines ↔
          (10 < samples.dedup.length ∧ k = samples.dedup.length - 10)) := by
  obtain ⟨hnd, hcnt, hkeys⟩ := recordAll_spec samples hcount
  have hlen := recordAll_length samples hcount
  have hmem : ∀ c n, (c, n) ∈ recordAll samples ↔ (c ∈ samples ∧ n = samples.count c) := by
    intro c n
    constructor
    · intro h
      exact hcnt (c, n) h
    · rintro ⟨hc, hn⟩
      obtain ⟨e, he, hec⟩ := List.mem_map.mp (hkeys c hc)
      have h2 := (hcnt e he).2
      have : e = (c, n) := by
        apply Prod.ext
        · exact hec
        · simp only [h2, hn, hec]
      rw [← this]
      exact he
  refine ⟨hnd, hmem, hlen, ?_, ?_, ?_, ?_⟩
  · intro c hne hall
    have hrep : samples = List.replicate samples.length c :=
      List.eq_replicate_iff.mpr ⟨rfl, hall⟩
    have hd : samples.dedup.length = 1 := by
      have hperm : samples.dedup.Perm [c] := by
        rw [List.perm_ext_iff_of_nodup (List.nodup_dedup _) (List.nodup_singleton c)]
        intro a
        simp only [List.mem_dedup, List.mem_singleton]
        constructor
        · exact hall a
        · rintro rfl
          obtain ⟨x, hx⟩ := List.exists_mem_of_ne_nil samples hne
          rw [← hall x hx]
          exact hx
      simpa using hperm.length_eq
    rw [hd] at hlen
    obtain ⟨e, he⟩ := List.length_eq_one.mp hlen
    have hin : e ∈ recordAll samples := by rw [he]; exact List.mem_singleton_self e
    obtain ⟨h1, h2⟩ := hcnt e hin
    have hec : e.1 = c := hall e.1 h1
    have hcc : samples.count c = samples.length := by
      rw [hrep]
      simp
    rw [he]
    congr 1
    apply Prod.ext
    · exact hec
    · simp only [h2, hec, hcc]
  · intro hsnd
    refine ⟨by rw [hlen, hsnd.dedup], ?_⟩
    intro e he
    obtain ⟨h1, h2⟩ := hcnt e he
    rw [h2]
    exact count_eq_one_of_nodup samples e.1 hsnd h1
  · obtain ⟨sorted, hsorted⟩ := exists_sortedCopyOf (recordAll samples)
    exact ⟨dumpSorted sorted, sorted, hsorted, rfl⟩
  · rintro output ⟨sorted, hcopy, rfl⟩
    have hl : sorted.length = samples.dedup.length := by
      rw [hcopy.1.length_eq, hlen]
    have hsize2 : sorted.length < 2 ^ 31 := by rw [hl]; exact hsize
    have hpw := sortedCopyOf_sorted _ _ hcopy
    have hsplit := List.take_append_drop 10 sorted
    have hshown : (sorted.take 10).Pairwise (fun a b => b.2 ≤ a.2) :=
      hpw.sublist (List.take_sublist _ _)
    have hentries : (dumpEntries 0 (sorted.take 10) ++
        (if 10 < samples.dedup.length then [LogLine.andMore (samples.dedup.length - 10)]
         else [])).filterMap entryOf = (sorted.take 10).enum.map (fun p => (p.1, p.2.2)) := by
      rw [List.filterMap_append, entryOf_dumpEntries]
      split <;> simp [entryOf, List.enum]
    refine ⟨dumpEntries 0 (sorted.take 10) ++
        (if 10 < samples.dedup.length then [LogLine.andMore (samples.dedup.length - 10)]
         else []), sorted.take 10, sorted.drop 10, ?_, ?_, ?_, hshown, ?_, ?_, hentries, ?_, ?_, ?_⟩
    · rw [dumpSorted_eq sorted hsize2, hl]
    · rw [hsplit]
      exact hcopy.1
    · rw [List.length_take, hl]
      unfold WATCHCAT_TOP_N_STACKS
      omega
    · rw [← hsplit] at hpw
      exact (List.pairwise_append.mp hpw).2.2
    · rw [dumpEntries_eq]
      rfl
    · rw [hentries, List.length_map, List.enum_length, List.length_take, hl]
    · rw [hentries, List.map_map]
      have hmap : (sorted.take 10).enum.map (Prod.snd ∘ fun p => (p.1, p.2.2)) =
          (sorted.take 10).map Prod.snd := by
        have h1 : (Prod.snd ∘ fun p : Nat × (Callstack × Nat) => (p.1, p.2.2)) =
            Prod.snd ∘ Prod.snd := rfl
        rw [h1, ← List.map_map, List.enum_map_snd]
      rw [hmap, List.pairwise_map]
      exact hshown
    · intro k
      simp only [List.mem_append, andMore_not_mem_dumpEntries, false_or]
      split
      · rename_i h10
        simp only [List.mem_singleton, LogLine.andMore.injEq]
        constructor
        · intro h; exact ⟨h10, h⟩
        · intro h; exact h.2
      · rename_i h10
        simp only [List.not_mem_nil, false_iff]
        intro h
        exact h10 h.1

theorem sortedSample_isCopy : sortedCopyOf (recordAll sampledStacks) sortedSample := by
  refine ⟨?_, by decide⟩
  decide

/-- Witness for `callstack_aggregation_and_ranking`: twelve distinct stacks, the
stack `[5]` sampled three times and `[11, 12]` twice, and one order the sort may
leave the vector in. The report numbers ten entries and ends with "... and 2
more". -/
theorem callstack_aggregation_and_ranking_witness :
    sortedCopyOf (recordAll sampledStacks) sortedSample ∧
    dumpSorted sortedSample =
      some [LogLine.callstack 0 3, LogLine.frame 5,
            LogLine.callstack 1 2, LogLine.frame 11, LogLine.frame 12,
            LogLine.callstack 2 1, LogLine.frame 13,
            LogLine.callstack 3 1, LogLine.frame 10,
            LogLine.callstack 4 1, LogLine.frame 9,
            LogLine.callstack 5 1, LogLine.frame 8,
            LogLine.callstack 6 1, LogLine.frame 7,
            LogLine.callstack 7 1, LogLine.frame 6,
            LogLine.callstack 8 1, LogLine.frame 4,
            LogLine.callstack 9 1, LogLine.frame 3,
            LogLine.andMore 2] ∧
    ∃ (lines : List LogLine) (shown omitted : List (Callstack × Nat)),
      dumpSorted sortedSample = some lines ∧
      (shown ++ omitted).Perm (recordAll sampledStacks) ∧
      (shown.length : Int) = min WATCHCAT_TOP_N_STACKS (sampledStacks.dedup.length : Int) ∧
      shown.Pairwise (fun a b => b.2 ≤ a.2) ∧
      (∀ a ∈ shown, ∀ b ∈ omitted, b.2 ≤ a.2) ∧
      lines = shown.enum.flatMap entryLines ++
        (if 10 < sampledStacks.dedup.length
          then [LogLine.andMore (sampledStacks.dedup.length - 10)] else []) ∧
      lines.filterMap entryOf = shown.enum.map (fun p => (p.1, p.2.2)) ∧
      (lines.filterMap entryOf).length = min 10 sampledStacks.dedup.length ∧
      ((lines.filterMap entryOf).map Prod.snd).Pairwise (fun a b => b ≤ a) ∧
      (∀ k, LogLine.andMore k ∈ lines ↔
        (10 < sampledStacks.dedup.length ∧ k = sampledStacks.dedup.length - 10)) :=
  ⟨sortedSample_isCopy, by decide,
   (callstack_aggregation_and_ranking sampledStacks (by decide) (by decide)).2.2.2.2.2.2
     (dumpSorted sortedSample) ⟨sortedSample, sortedSample_isCopy, rfl⟩⟩

/-! ## Theorems: the sampling handshake -/

theorem Handshake.inPhase_init : Handshake.init.inPhase := by
  simp [Handshake.inPhase, Handshake.init]

theorem Handshake.inPhase_step (s s1 : Handshake) (a : Action) (hs : s.inPhase)
    (hstep : s.step a = some s1) : s1.inPhase := by
  obtain ⟨wd, wh, mh, flag, pm, pw, r, sf, sv, wr, wn, rf, ak, ff, ob⟩ := s
  cases a <;> cases wd <;> cases wh <;> cases mh <;> cases pm <;> cases pw <;> cases wr <;>
    simp only [Handshake.inPhase] at hs <;>
    cases flag <;>
    simp [Handshake.step] at hstep <;>
    subst hstep <;>
    simp [Handshake.inPhase] at hs ⊢ <;>
    omega

theorem Handshake.inPhase_exec (acts : List Action) :
    ∀ s s1 : Handshake, s.inPhase → s.exec acts = some s1 → s1.inPhase := by
  induction acts with
  | nil =>
    intro s s1 hs h
    simp only [Handshake.exec, Option.some.injEq] at h
    subst h
    exact hs
  | cons a rest ih =>
    intro s s1 hs h
    simp only [Handshake.exec] at h
    cases hstep : s.step a with
    | none => simp [hstep] at h
    | some s2 =>
      rw [hstep] at h
      exact ih s2 s1 (Handshake.inPhase_step s s2 a hs hstep) h

/-- C10: in every interleaving of the watchdog thread, the two handler activations
and the two signal deliveries, starting before the first request: whenever the
watchdog is about to read the buffer and its length (line 185), a load of line
183 has returned true for the current request, the flag having been stored
true for that request, and the buffer and length are completely written for it
and not being written; whenever the flag is about to be stored true (line 75),
and whenever it is true, the main thread's handler has completely written the
buffer and length for the current request, has sent the return signal for it
and has returned; a step that turns the flag from false to true is taken only
in such a state; and the assertion of line 74 never fails. -/
theorem handshake_ordering (acts : List Action) (s : Handshake)
    (hreach : Handshake.init.exec acts = some s) :
    (s.watchdog = WatchdogPc.readBuffer →
      s.observed = s.request ∧ s.flagFor = s.request ∧ s.s_callstackCallback = true ∧
        s.written = s.request ∧ s.writing = false) ∧
    (s.watchdogHandler = WatchdogHandlerPc.storeFlag →
      s.written = s.request ∧ s.writing = false ∧ s.returnFor = s.request ∧
        s.mainHandler = MainHandlerPc.notRunning) ∧
    (s.s_callstackCallback = true →
      s.written = s.request ∧ s.writing = false ∧ s.returnFor = s.request ∧
        s.mainHandler = MainHandlerPc.notRunning) ∧
    (∀ (a : Action) (s1 : Handshake), s.step a = some s1 →
      s.s_callstackCallback = false → s1.s_callstackCallback = true →
        s.written = s.request ∧ s.writing = false ∧ s.returnFor = s.request ∧
          s.mainHandler = MainHandlerPc.notRunning) ∧
    s.watchdogHandler ≠ WatchdogHandlerPc.aborted := by
  have hs := Handshake.inPhase_exec acts Handshake.init s Handshake.inPhase_init hreach
  clear hreach
  obtain ⟨wd, wh, mh, flag, pm, pw, r, sf, sv, wr, wn, rf, ak, ff, ob⟩ := s
  refine ⟨?_, ?_, ?_, ?_, ?_⟩
  · intro h
    simp only at h
    subst h
    cases wh <;> cases mh <;> cases pm <;> cases pw <;> cases wr
    all_goals simp only [Handshake.inPhase] at hs
    all_goals simp_all
  · intro h
    simp only at h
    subst h
    cases wd <;> cases mh <;> cases pm <;> cases pw <;> cases wr
    all_goals simp only [Handshake.inPhase] at hs
    all_goals simp_all
  · intro h
    simp only at h
    subst h
    cases wd <;> cases wh <;> cases mh <;> cases pm <;> cases pw <;> cases wr
    all_goals simp only [Handshake.inPhase] at hs
    all_goals simp_all
  · intro a s1 hstep hf hf1
    simp only at hf
    subst hf
    cases a <;> cases wd <;> cases wh <;> cases mh <;> cases pm <;> cases pw <;> cases wr <;>
      simp only [Handshake.inPhase] at hs <;>
      simp [Handshake.step] at hstep <;>
      subst hstep <;>
      simp_all
  · intro h
    simp only at h
    subst h
    cases wd <;> cases mh <;> cases pm <;> cases pw <;> cases wr
    all_goals simp only [Handshake.inPhase] at hs

/-- Witness for `handshake_ordering`: the interleaving `oneRound` brings the
watchdog to the read of line 185 for request 1. -/
theorem handshake_ordering_witness :
    afterOneRound.watchdog = WatchdogPc.readBuffer ∧
    (afterOneRound.watchdog = WatchdogPc.readBuffer →
      afterOneRound.observed = afterOneRound.request ∧
        afterOneRound.flagFor = afterOneRound.request ∧
        afterOneRound.s_callstackCallback = true ∧
        afterOneRound.written = afterOneRound.request ∧ afterOneRound.writing = false) :=
  ⟨rfl, (handshake_ordering oneRound afterOneRound (by decide)).1⟩

end Watchcat
